import Mathlib

/-!
Verification development for the `elastic-dump` exporter (`dump.py`).

The script discovers all indices of an Elasticsearch store, and for each
index scans its full document set via cursor pagination and writes the
documents to `<directory>/<host with dots replaced>/<index>_<unix-ts>.json`
as a JSON array (via `json.dump(results, f, indent=2)`).

The development shallowly embeds:
  * the JSON value model, the serializer used by `json.dump(…, indent=2)`
    with `ensure_ascii=True`, and a model of `json.load`s parser, with a
    serialize-then-parse round-trip proof;
  * the cursor pagination of the document scan;
  * the configuration flattener `load_config`;
  * the `ElasticDump` path/filename derivations and the side effects of
    `__init__`, `dump_to_file`, `process_index` and `run`;
  * a worker-pool state machine for the `ThreadPoolExecutor` bound.
-/

namespace ElasticDump

/-! ### Decimal rendering of naturals (Python `repr` of a nonnegative int) -/

/-- The character for a single decimal digit `d < 10`. -/
def digitChar (d : Nat) : Char := Char.ofNat (48 + d)

/-- Decision of the ASCII-digit character class used by the number
grammar. -/
def isDigitChar (c : Char) : Bool := 48 ≤ c.toNat && c.toNat ≤ 57

/-- Decimal digit list of a natural number, most significant digit first;
exactly the digits Python `repr` prints for a nonnegative `int`. -/
def natDec (n : Nat) : List Char :=
  if h : n < 10 then [digitChar n]
  else natDec (n / 10) ++ [digitChar (n % 10)]
  decreasing_by exact Nat.div_lt_self (by omega) (by omega)

/-- Greedy decimal-digit consumption with a numeric accumulator, as the
number grammar of `json.load` consumes an integer literal. -/
def parseDigits : List Char → Nat → Nat × List Char
  | [], acc => (acc, [])
  | c :: r, acc =>
    if isDigitChar c then parseDigits r (acc * 10 + (c.toNat - 48)) else (acc, c :: r)

theorem digitChar_isDigit {d : Nat} (h : d < 10) : isDigitChar (digitChar d) = true := by
  interval_cases d <;> decide

theorem digitChar_toNat {d : Nat} (h : d < 10) : (digitChar d).toNat = 48 + d := by
  interval_cases d <;> decide

theorem parseDigits_nonDigit {l : List Char} (acc : Nat)
    (h : ∀ c t, l = c :: t → isDigitChar c = false) : parseDigits l acc = (acc, l) := by
  cases l with
  | nil => rfl
  | cons c t => simp [parseDigits, h c t rfl]

theorem parseDigits_natDec (n : Nat) : ∀ acc rest,
    parseDigits (natDec n ++ rest) acc
      = parseDigits rest (acc * 10 ^ (natDec n).length + n) := by
  induction n using Nat.strong_induction_on with
  | _ n ih =>
    intro acc rest
    by_cases h : n < 10
    · rw [natDec]
      simp only [h, dite_true, List.cons_append, List.nil_append, List.length_cons,
        List.length_nil, parseDigits, digitChar_isDigit h, if_true, digitChar_toNat h]
      have : 48 + n - 48 = n := by omega
      rw [this]
      ring_nf
    · rw [natDec]
      simp only [h, dite_false, List.append_assoc, List.singleton_append,
        List.length_append, List.length_cons, List.length_nil]
      rw [ih (n / 10) (Nat.div_lt_self (by omega) (by omega))]
      simp only [parseDigits, digitChar_isDigit (Nat.mod_lt n (by omega)), if_true,
        digitChar_toNat (Nat.mod_lt n (by omega))]
      have h48 : 48 + n % 10 - 48 = n % 10 := by omega
      rw [h48]
      have : (acc * 10 ^ ((natDec (n / 10)).length + 1) + n)
          = (acc * 10 ^ (natDec (n / 10)).length + n / 10) * 10 + n % 10 := by
        rw [pow_succ]
        have := Nat.div_add_mod n 10
        ring_nf
        omega
      rw [this]

theorem natDec_injective : Function.Injective natDec := by
  intro n m h
  have hn := parseDigits_natDec n 0 []
  have hm := parseDigits_natDec m 0 []
  rw [h] at hn
  rw [hn] at hm
  simpa [parseDigits] using hm

/-! ### Cursor-paginated scan

Modelled from the spec: the document scan (`elasticsearch.helpers.scan`,
library code not under `src/`) issues repeated page requests of up to
`pageSize` documents against one index until the store signals no further
pages, and yields the documents of every page in order (§4.2). `paginate`
produces the successive pages; the scan yields their concatenation. -/

/-- Pages of the scan: the store hands out the documents of one index in
successive pages of at most `max 1 P` documents (a positive page size `P`
gives pages of at most `P`). -/
def paginate (P : Nat) : List α → List (List α)
  | [] => []
  | a :: l => (a :: l.take (P - 1)) :: paginate P (l.drop (P - 1))
  termination_by l => l.length
  decreasing_by simp only [List.length_cons]; have := l.length_drop (P - 1); omega

/-- All documents the scan yields for one index: the concatenation of the
pages, in page order. -/
def scanDocs (P : Nat) (docs : List α) : List α := (paginate P docs).flatten

theorem paginate_flatten (P : Nat) (docs : List α) :
    (paginate P docs).flatten = docs := by
  induction docs using paginate.induct P with
  | case1 => rw [paginate]; rfl
  | case2 a l ih =>
    rw [paginate]
    simp only [List.flatten_cons, ih, List.cons_append, List.cons.injEq, true_and]
    exact List.take_append_drop (P - 1) l

theorem scanDocs_eq (P : Nat) (docs : List α) : scanDocs P docs = docs :=
  paginate_flatten P docs

/-- The number of pages the scan issues for `D` documents with a positive
page size `P` is `⌈D / P⌉`. -/
theorem paginate_length (P : Nat) (hP : 0 < P) (docs : List α) :
    (paginate P docs).length = (docs.length + P - 1) / P := by
  induction docs using paginate.induct P with
  | case1 =>
    rw [paginate]
    simp only [List.length_nil]
    rw [Nat.div_eq_of_lt (by omega)]
  | case2 a l ih =>
    rw [paginate]
    simp only [List.length_cons, ih, List.length_drop]
    have hR : l.length + 1 + P - 1 = l.length + P := by omega
    rw [hR, Nat.add_div_right _ hP]
    rcases Nat.lt_or_ge l.length (P - 1) with h | h
    · have h1 : l.length - (P - 1) = 0 := by omega
      rw [h1, Nat.div_eq_of_lt (by omega : 0 + P - 1 < P),
        Nat.div_eq_of_lt (by omega : l.length < P)]
    · have h1 : l.length - (P - 1) + P - 1 = l.length := by omega
      rw [h1]

/-! ### JSON documents and `json.dump(results, f, indent=2)`

Documents are JSON values; numbers are modelled as integers (documents
holding floating-point numbers are outside the model). The serializer
follows CPython `json.JSONEncoder` with `indent=2` and the default
`ensure_ascii=True`: two-space indentation, item separator `,`, key
separator `: `, and every character outside printable ASCII escaped. -/

/-- A JSON value as handled by `json.dump` / `json.load`: an Elasticsearch
hit is such a value (an object with `_index`, `_id`, `_source`, …). -/
inductive Json where
  | null : Json
  | bool (b : Bool) : Json
  | num (n : Int) : Json
  | str (s : String) : Json
  | arr (elems : List Json) : Json
  | obj (members : List (String × Json)) : Json

/-- The double-quote character. -/
def dq : Char := Char.ofNat 34

/-- The opening-brace character. -/
def lbrace : Char := Char.ofNat 123

/-- The closing-brace character. -/
def rbrace : Char := Char.ofNat 125

/-- Lowercase hexadecimal digit for `d < 16`, as printed by `%04x`. -/
def hexChar (d : Nat) : Char :=
  if d < 10 then Char.ofNat (48 + d) else Char.ofNat (87 + d)

/-- Numeric value of a hexadecimal digit character. -/
def hexVal (c : Char) : Nat :=
  if 97 ≤ c.toNat then c.toNat - 87
  else if 65 ≤ c.toNat then c.toNat - 55
  else c.toNat - 48

/-- Decision of the hexadecimal-digit character class. -/
def isHex (c : Char) : Bool :=
  (48 ≤ c.toNat && c.toNat ≤ 57) || (97 ≤ c.toNat && c.toNat ≤ 102)
    || (65 ≤ c.toNat && c.toNat ≤ 70)

/-- The four hex digits of `\uXXXX` for a code unit `n < 0x10000`. -/
def toHex4 (n : Nat) : List Char :=
  [hexChar (n / 4096 % 16), hexChar (n / 256 % 16), hexChar (n / 16 % 16),
    hexChar (n % 16)]

/-- Escaping of one character by `json.dump` with `ensure_ascii=True`
(CPython `py_encode_basestring_ascii`): backslash, quote and the short
control escapes get two-character escapes, printable ASCII is literal, and
everything else becomes `\uXXXX`, as a surrogate pair beyond the BMP. -/
def escChar (c : Char) : List Char :=
  if c = dq then ['\\', dq]
  else if c = '\\' then ['\\', '\\']
  else if c.toNat = 8 then ['\\', 'b']
  else if c.toNat = 9 then ['\\', 't']
  else if c.toNat = 10 then ['\\', 'n']
  else if c.toNat = 12 then ['\\', 'f']
  else if c.toNat = 13 then ['\\', 'r']
  else if 32 ≤ c.toNat ∧ c.toNat ≤ 126 then [c]
  else if c.toNat < 65536 then '\\' :: 'u' :: toHex4 c.toNat
  else ('\\' :: 'u' :: toHex4 (55296 + (c.toNat - 65536) / 1024))
    ++ ('\\' :: 'u' :: toHex4 (56320 + (c.toNat - 65536) % 1024))

/-- Escaping of the characters of a string body. -/
def escStr : List Char → List Char
  | [] => []
  | c :: t => escChar c ++ escStr t

/-- Serialized JSON string: quote, escaped body, quote. -/
def renderStr (s : String) : List Char := dq :: escStr s.data ++ [dq]

/-- Serialized integer, as Python `repr` of an `int`. -/
def intDec (i : Int) : List Char :=
  if i < 0 then '-' :: natDec i.natAbs else natDec i.toNat

/-- Newline plus the two-space-per-level indentation `json.dump(indent=2)`
inserts before an element at nesting depth `lvl`. -/
def nlIndent (lvl : Nat) : List Char := '\n' :: List.replicate (2 * lvl) ' '

mutual

/-- Serialization of a JSON value at nesting depth `lvl`, following
CPython `json.dump(…, indent=2)`: empty containers print as two
characters, non-empty ones put every item on its own indented line. -/
def renderJ : Nat → Json → List Char
  | _, .null => ['n', 'u', 'l', 'l']
  | _, .bool true => ['t', 'r', 'u', 'e']
  | _, .bool false => ['f', 'a', 'l', 's', 'e']
  | _, .num i => intDec i
  | _, .str s => renderStr s
  | _, .arr [] => ['[', ']']
  | lvl, .arr (x :: xs) =>
    '[' :: nlIndent (lvl + 1) ++ renderJ (lvl + 1) x
      ++ renderElems (lvl + 1) xs ++ nlIndent lvl ++ [']']
  | _, .obj [] => [lbrace, rbrace]
  | lvl, .obj ((k, v) :: ms) =>
    lbrace :: nlIndent (lvl + 1) ++ renderStr k ++ ':' :: ' ' :: renderJ (lvl + 1) v
      ++ renderMembersTail (lvl + 1) ms ++ nlIndent lvl ++ [rbrace]

/-- Serialization of the remaining array elements, each preceded by the
item separator and a fresh indented line. -/
def renderElems : Nat → List Json → List Char
  | _, [] => []
  | lvl, x :: xs => ',' :: nlIndent lvl ++ renderJ lvl x ++ renderElems lvl xs

/-- Serialization of the remaining object members, each preceded by the
item separator and a fresh indented line, with the `: ` key separator. -/
def renderMembersTail : Nat → List (String × Json) → List Char
  | _, [] => []
  | lvl, (k, v) :: ms =>
    ',' :: nlIndent lvl ++ renderStr k ++ ':' :: ' ' :: renderJ lvl v
      ++ renderMembersTail lvl ms

end

mutual

/-- Structural size of a JSON value; a fuel bound for the parser. -/
def sizeJ : Json → Nat
  | .null => 1
  | .bool _ => 1
  | .num _ => 1
  | .str _ => 1
  | .arr xs => 1 + sizeElems xs
  | .obj ms => 1 + sizeMembers ms

/-- Structural size of a list of array elements. -/
def sizeElems : List Json → Nat
  | [] => 0
  | x :: xs => 1 + sizeJ x + sizeElems xs

/-- Structural size of a list of object members. -/
def sizeMembers : List (String × Json) → Nat
  | [] => 0
  | (_, v) :: ms => 1 + sizeJ v + sizeMembers ms

end

/-! ### Parsing (`json.load`)

A recursive-descent model of the CPython `json` scanner, on character
lists, with a fuel argument for the nesting depth (the concrete fuel
passed by `parseJson` always suffices, as the round-trip proof shows).
Unsupported by the model: `json.load` also accepts floating-point
literals; the renderer above never produces them. -/

/-- Decision of the JSON whitespace class (space, tab, newline, carriage
return). -/
def isWs (c : Char) : Bool :=
  c.toNat = 32 || c.toNat = 9 || c.toNat = 10 || c.toNat = 13

/-- Consumption of leading whitespace. -/
def skipWs : List Char → List Char
  | [] => []
  | c :: t => if isWs c then skipWs t else c :: t

/-- Consumption of exactly four hexadecimal digits of a `\uXXXX` escape. -/
def parseHex4 : List Char → Option (Nat × List Char)
  | c1 :: c2 :: c3 :: c4 :: r =>
    if isHex c1 && isHex c2 && isHex c3 && isHex c4 then
      some (((hexVal c1 * 16 + hexVal c2) * 16 + hexVal c3) * 16 + hexVal c4, r)
    else none
  | _ => none

/-- Continuation after a `\uXXXX` high surrogate `v`: when the input goes
on with a `\uXXXX` low surrogate the two combine into one supplementary
character, otherwise the lone surrogate is taken as is. -/
def pairCont (v : Nat) (r1 : List Char) : Option (Char × List Char) :=
  match r1 with
  | b :: u :: r2 =>
    if b = '\\' ∧ u = 'u' then
      match parseHex4 r2 with
      | some (w, r3) =>
        if 56320 ≤ w ∧ w < 57344 then
          some (Char.ofNat (65536 + (v - 55296) * 1024 + (w - 56320)), r3)
        else some (Char.ofNat v, r1)
      | none => some (Char.ofNat v, r1)
    else some (Char.ofNat v, r1)
  | _ => some (Char.ofNat v, r1)

/-- Consumption of one escape sequence, after the backslash. A `\uXXXX`
high surrogate directly followed by a `\uXXXX` low surrogate combines into
one supplementary character. -/
def parseEscape : List Char → Option (Char × List Char)
  | [] => none
  | c :: r =>
    if c = dq then some (dq, r)
    else if c = '\\' then some ('\\', r)
    else if c = '/' then some ('/', r)
    else if c = 'b' then some (Char.ofNat 8, r)
    else if c = 'f' then some (Char.ofNat 12, r)
    else if c = 'n' then some (Char.ofNat 10, r)
    else if c = 'r' then some (Char.ofNat 13, r)
    else if c = 't' then some (Char.ofNat 9, r)
    else if c = 'u' then
      match parseHex4 r with
      | none => none
      | some (v, r1) =>
        if 55296 ≤ v ∧ v < 56320 then pairCont v r1
        else some (Char.ofNat v, r1)
    else none

/-- Consumption of a string body after the opening quote, up to and past
the closing quote; raw control characters are rejected (`strict` mode of
`json.load`). The fuel only needs to exceed the number of produced
characters. -/
def parseStrBody : Nat → List Char → Option (List Char × List Char)
  | 0, _ => none
  | _, [] => none
  | fuel + 1, c :: r =>
    if c = dq then some ([], r)
    else if c = '\\' then
      match parseEscape r with
      | none => none
      | some (e, r1) =>
        match parseStrBody fuel r1 with
        | none => none
        | some (s, r2) => some (e :: s, r2)
    else if c.toNat < 32 then none
    else
      match parseStrBody fuel r with
      | none => none
      | some (s, r2) => some (c :: s, r2)

mutual

/-- Parsing of one JSON value: leading whitespace, then dispatch on the
first character. -/
def parseVal : Nat → List Char → Option (Json × List Char)
  | 0, _ => none
  | fuel + 1, l =>
    match skipWs l with
    | [] => none
    | c :: r =>
      if c = 'n' then
        match r with
        | 'u' :: 'l' :: 'l' :: r1 => some (.null, r1)
        | _ => none
      else if c = 't' then
        match r with
        | 'r' :: 'u' :: 'e' :: r1 => some (.bool true, r1)
        | _ => none
      else if c = 'f' then
        match r with
        | 'a' :: 'l' :: 's' :: 'e' :: r1 => some (.bool false, r1)
        | _ => none
      else if c = dq then
        match parseStrBody (r.length + 1) r with
        | some (s, r1) => some (.str (String.mk s), r1)
        | none => none
      else if c = '-' then
        match r with
        | d :: r1 =>
          if isDigitChar d then
            let p := parseDigits r1 (d.toNat - 48)
            some (.num (-(p.1 : Int)), p.2)
          else none
        | [] => none
      else if isDigitChar c then
        let p := parseDigits r (c.toNat - 48)
        some (.num (p.1 : Int), p.2)
      else if c = '[' then
        match skipWs r with
        | c1 :: _ =>
          if c1 = ']' then
            match skipWs r with
            | _ :: r1 => some (.arr [], r1)
            | [] => none
          else
            match parseElems fuel r with
            | some (xs, r2) => some (.arr xs, r2)
            | none => none
        | [] => none
      else if c = lbrace then
        match skipWs r with
        | c1 :: _ =>
          if c1 = rbrace then
            match skipWs r with
            | _ :: r1 => some (.obj [], r1)
            | [] => none
          else
            match parseMembers fuel r with
            | some (ms, r2) => some (.obj ms, r2)
            | none => none
        | [] => none
      else none

/-- Parsing of the elements of a non-empty array, up to and past the
closing bracket. -/
def parseElems : Nat → List Char → Option (List Json × List Char)
  | 0, _ => none
  | fuel + 1, l =>
    match parseVal fuel l with
    | none => none
    | some (x, r) =>
      match skipWs r with
      | c :: r1 =>
        if c = ',' then
          match parseElems fuel r1 with
          | some (xs, r2) => some (x :: xs, r2)
          | none => none
        else if c = ']' then some ([x], r1)
        else none
      | [] => none

/-- Parsing of the members of a non-empty object, up to and past the
closing brace. -/
def parseMembers : Nat → List Char → Option (List (String × Json) × List Char)
  | 0, _ => none
  | fuel + 1, l =>
    match skipWs l with
    | c :: r =>
      if c = dq then
        match parseStrBody (r.length + 1) r with
        | none => none
        | some (k, r1) =>
          match skipWs r1 with
          | c1 :: r2 =>
            if c1 = ':' then
              match parseVal fuel r2 with
              | none => none
              | some (v, r3) =>
                match skipWs r3 with
                | c2 :: r4 =>
                  if c2 = ',' then
                    match parseMembers fuel r4 with
                    | some (ms, r5) => some ((String.mk k, v) :: ms, r5)
                    | none => none
                  else if c2 = rbrace then some ([(String.mk k, v)], r4)
                  else none
                | [] => none
            else none
          | [] => none
      else none
    | [] => none

end

/-- Parsing of a whole JSON text: one value, then only whitespace may
remain. -/
def parseJson (s : List Char) : Option Json :=
  match parseVal (s.length + 1) s with
  | some (j, r) => if skipWs r = [] then some j else none
  | none => none

/-- Content `json.dump(results, output_file, indent=2)` writes for the
document list `results` of one index. -/
def renderArtifact (docs : List Json) : List Char := renderJ 0 (.arr docs)

/-- The documents read back from an artifact file: the parsed JSON array. -/
def parseArtifact (s : List Char) : Option (List Json) :=
  match parseJson s with
  | some (.arr xs) => some xs
  | _ => none

/-! ### Round-trip lemmas: characters, escapes, strings -/

theorem char_range (c : Char) :
    c.toNat < 55296 ∨ (57343 < c.toNat ∧ c.toNat < 1114112) := c.valid

theorem hexChar_spec {d : Nat} (h : d < 16) :
    isHex (hexChar d) = true ∧ hexVal (hexChar d) = d := by
  interval_cases d <;> exact ⟨by decide, by decide⟩

theorem parseHex4_toHex4 {v : Nat} (h : v < 65536) (t : List Char) :
    parseHex4 (toHex4 v ++ t) = some (v, t) := by
  have h1 := hexChar_spec (d := v / 4096 % 16) (Nat.mod_lt _ (by omega))
  have h2 := hexChar_spec (d := v / 256 % 16) (Nat.mod_lt _ (by omega))
  have h3 := hexChar_spec (d := v / 16 % 16) (Nat.mod_lt _ (by omega))
  have h4 := hexChar_spec (d := v % 16) (Nat.mod_lt _ (by omega))
  simp only [toHex4, List.cons_append, List.nil_append, parseHex4, h1.1, h2.1,
    h3.1, h4.1, Bool.and_self, if_true, h1.2, h2.2, h3.2, h4.2]
  have hv : ((v / 4096 % 16 * 16 + v / 256 % 16) * 16 + v / 16 % 16) * 16 + v % 16
      = v := by omega
  rw [hv]

theorem charOfNat_toNat (c : Char) : Char.ofNat c.toNat = c := Char.ofNat_toNat c

theorem parseEscape_u_bmp {v : Nat} (hv : v < 65536)
    (hns : ¬(55296 ≤ v ∧ v < 56320)) (t : List Char) :
    parseEscape ('u' :: (toHex4 v ++ t)) = some (Char.ofNat v, t) := by
  rw [parseEscape, if_neg (by decide : ¬('u' : Char) = dq),
    if_neg (by decide : ¬('u' : Char) = '\\'), if_neg (by decide : ¬('u' : Char) = '/'),
    if_neg (by decide : ¬('u' : Char) = 'b'), if_neg (by decide : ¬('u' : Char) = 'f'),
    if_neg (by decide : ¬('u' : Char) = 'n'), if_neg (by decide : ¬('u' : Char) = 'r'),
    if_neg (by decide : ¬('u' : Char) = 't'), if_pos (rfl : ('u' : Char) = 'u')]
  simp only [parseHex4_toHex4 hv]
  rw [if_neg hns]

theorem parseEscape_u_pair {v w : Nat} (hv : v < 65536) (hw : w < 65536)
    (hvs : 55296 ≤ v ∧ v < 56320) (hws : 56320 ≤ w ∧ w < 57344) (t : List Char) :
    parseEscape ('u' :: (toHex4 v ++ '\\' :: 'u' :: (toHex4 w ++ t)))
      = some (Char.ofNat (65536 + (v - 55296) * 1024 + (w - 56320)), t) := by
  rw [parseEscape, if_neg (by decide : ¬('u' : Char) = dq),
    if_neg (by decide : ¬('u' : Char) = '\\'), if_neg (by decide : ¬('u' : Char) = '/'),
    if_neg (by decide : ¬('u' : Char) = 'b'), if_neg (by decide : ¬('u' : Char) = 'f'),
    if_neg (by decide : ¬('u' : Char) = 'n'), if_neg (by decide : ¬('u' : Char) = 'r'),
    if_neg (by decide : ¬('u' : Char) = 't'), if_pos (rfl : ('u' : Char) = 'u')]
  simp only [parseHex4_toHex4 hv]
  rw [if_pos hvs, pairCont,
    if_pos (⟨rfl, rfl⟩ : ('\\' : Char) = '\\' ∧ ('u' : Char) = 'u')]
  simp only [parseHex4_toHex4 hw]
  rw [if_pos hws]

theorem parseStrBody_esc (c : Char) (t : List Char) (fuel : Nat) :
    parseStrBody (fuel + 1) (escChar c ++ t)
      = match parseStrBody fuel t with
        | none => none
        | some (s, r) => some (c :: s, r) := by
  by_cases h1 : c = dq
  · subst h1
    simp +decide [escChar, parseStrBody, parseEscape]
  · by_cases h2 : c = '\\'
    · subst h2
      simp +decide [escChar, parseStrBody, parseEscape]
    · by_cases h3 : c.toNat = 8
      · have hc : c = Char.ofNat 8 := by rw [← charOfNat_toNat c, h3]
        subst hc
        simp +decide [escChar, parseStrBody, parseEscape]
      · by_cases h4 : c.toNat = 9
        · have hc : c = Char.ofNat 9 := by rw [← charOfNat_toNat c, h4]
          subst hc
          simp +decide [escChar, parseStrBody, parseEscape]
        · by_cases h5 : c.toNat = 10
          · have hc : c = Char.ofNat 10 := by rw [← charOfNat_toNat c, h5]
            subst hc
            simp +decide [escChar, parseStrBody, parseEscape]
          · by_cases h6 : c.toNat = 12
            · have hc : c = Char.ofNat 12 := by rw [← charOfNat_toNat c, h6]
              subst hc
              simp +decide [escChar, parseStrBody, parseEscape]
            · by_cases h7 : c.toNat = 13
              · have hc : c = Char.ofNat 13 := by rw [← charOfNat_toNat c, h7]
                subst hc
                simp +decide [escChar, parseStrBody, parseEscape]
              · by_cases h8 : 32 ≤ c.toNat ∧ c.toNat ≤ 126
                · rw [escChar, if_neg h1, if_neg h2, if_neg h3, if_neg h4,
                    if_neg h5, if_neg h6, if_neg h7, if_pos h8]
                  rw [List.singleton_append, parseStrBody, if_neg h1, if_neg h2,
                    if_neg (by omega : ¬c.toNat < 32)]
                · by_cases h9 : c.toNat < 65536
                  · rw [escChar, if_neg h1, if_neg h2, if_neg h3, if_neg h4,
                      if_neg h5, if_neg h6, if_neg h7, if_neg h8, if_pos h9]
                    have hnotsur : ¬(55296 ≤ c.toNat ∧ c.toNat < 56320) := by
                      rcases char_range c with hr | hr <;> omega
                    have hesc := parseEscape_u_bmp h9 hnotsur t
                    rw [charOfNat_toNat] at hesc
                    simp only [List.cons_append]
                    rw [parseStrBody, if_neg (by decide : ¬('\\' : Char) = dq),
                      if_pos (rfl : ('\\' : Char) = '\\'), hesc]
                  · rw [escChar, if_neg h1, if_neg h2, if_neg h3, if_neg h4,
                      if_neg h5, if_neg h6, if_neg h7, if_neg h8, if_neg h9]
                    have hcv : c.toNat < 1114112 := by
                      rcases char_range c with hr | hr <;> omega
                    have hhi : 55296 + (c.toNat - 65536) / 1024 < 65536 := by omega
                    have hlo : 56320 + (c.toNat - 65536) % 1024 < 65536 := by omega
                    have hhisur : 55296 ≤ 55296 + (c.toNat - 65536) / 1024
                        ∧ 55296 + (c.toNat - 65536) / 1024 < 56320 := by omega
                    have hlosur : 56320 ≤ 56320 + (c.toNat - 65536) % 1024
                        ∧ 56320 + (c.toNat - 65536) % 1024 < 57344 := by omega
                    have hesc := parseEscape_u_pair hhi hlo hhisur hlosur t
                    have hcomb : 65536 + (55296 + (c.toNat - 65536) / 1024 - 55296) * 1024
                        + (56320 + (c.toNat - 65536) % 1024 - 56320) = c.toNat := by omega
                    rw [hcomb, charOfNat_toNat] at hesc
                    simp only [List.cons_append, List.append_assoc]
                    rw [parseStrBody, if_neg (by decide : ¬('\\' : Char) = dq),
                      if_pos (rfl : ('\\' : Char) = '\\'), hesc]

theorem escChar_length_pos (c : Char) : 1 ≤ (escChar c).length := by
  rw [escChar]
  split_ifs <;> simp [toHex4]

theorem escStr_length (cs : List Char) : cs.length ≤ (escStr cs).length := by
  induction cs with
  | nil => simp [escStr]
  | cons c t ih =>
    rw [escStr]
    simp only [List.length_cons, List.length_append]
    have := escChar_length_pos c
    omega

theorem parseStrBody_escStr (cs : List Char) : ∀ (rest : List Char) (fuel : Nat),
    cs.length < fuel →
    parseStrBody fuel (escStr cs ++ dq :: rest) = some (cs, rest) := by
  induction cs with
  | nil =>
    intro rest fuel h
    obtain ⟨f, rfl⟩ : ∃ f, fuel = f + 1 := ⟨fuel - 1, by omega⟩
    simp [escStr, parseStrBody]
  | cons c t ih =>
    intro rest fuel h
    obtain ⟨f, rfl⟩ : ∃ f, fuel = f + 1 := ⟨fuel - 1, by omega⟩
    rw [escStr, List.append_assoc, parseStrBody_esc,
      ih rest f (by simp only [List.length_cons] at h; omega)]

/-! ### Whitespace, dispatch heads, and number heads -/

/-- Decision that the first character, if any, is not a digit, so that the
greedy number grammar stops before `rest`. -/
def headOk : List Char → Bool
  | [] => true
  | c :: _ => !isDigitChar c

theorem skipWs_allWs {w : List Char} (h : w.all isWs = true) (l : List Char) :
    skipWs (w ++ l) = skipWs l := by
  induction w with
  | nil => rfl
  | cons c t ih =>
    simp only [List.all_cons, Bool.and_eq_true] at h
    rw [List.cons_append, skipWs, if_pos h.1]
    exact ih h.2

theorem skipWs_cons {c : Char} (h : isWs c = false) (l : List Char) :
    skipWs (c :: l) = c :: l := by
  rw [skipWs, if_neg (by simp [h])]

theorem headOk_cons {c : Char} {l : List Char} (h : headOk (c :: l) = true) :
    isDigitChar c = false := by
  simpa [headOk] using h

theorem ws_not_digit {c : Char} (h : isWs c = true) : isDigitChar c = false := by
  have hv : ((c.toNat = 32 ∨ c.toNat = 9) ∨ c.toNat = 10) ∨ c.toNat = 13 := by
    simpa [isWs] using h
  cases hd : isDigitChar c
  · rfl
  · exfalso
    have : 48 ≤ c.toNat ∧ c.toNat ≤ 57 := by simpa [isDigitChar] using hd
    omega

theorem headOk_append {w l : List Char} (hw : w.all isWs = true)
    (hl : headOk l = true) : headOk (w ++ l) = true := by
  cases w with
  | nil => simpa
  | cons c t =>
    simp only [List.all_cons, Bool.and_eq_true] at hw
    simp [headOk, ws_not_digit hw.1]

theorem nlIndent_allWs (lvl : Nat) : (nlIndent lvl).all isWs = true := by
  simp only [nlIndent, List.all_cons, Bool.and_eq_true]
  refine ⟨by decide, ?_⟩
  rw [List.all_eq_true]
  intro x hx
  rw [List.eq_of_mem_replicate hx]
  decide

theorem natDec_ne_nil (n : Nat) : natDec n ≠ [] := by
  rw [natDec]
  split <;> simp

theorem natDec_head_digit (n : Nat) : ∀ {d : Char} {t : List Char},
    natDec n = d :: t → isDigitChar d = true := by
  induction n using Nat.strong_induction_on with
  | _ n ih =>
    intro d t h
    rw [natDec] at h
    split at h
    · rename_i hlt
      injection h with h1 h2
      rw [← h1]
      exact digitChar_isDigit hlt
    · rename_i hlt
      cases hnd : natDec (n / 10) with
      | nil => exact absurd hnd (natDec_ne_nil _)
      | cons d' t' =>
        rw [hnd, List.cons_append] at h
        injection h with h1 h2
        rw [← h1]
        exact ih (n / 10) (Nat.div_lt_self (by omega) (by omega)) hnd

theorem parseDigits_natDec0 {rest : List Char} (n : Nat) (h : headOk rest = true) :
    parseDigits (natDec n ++ rest) 0 = (n, rest) := by
  rw [parseDigits_natDec, Nat.zero_mul, Nat.zero_add]
  apply parseDigits_nonDigit
  intro c t hct
  rw [hct] at h
  exact headOk_cons h

theorem digit_facts {d : Char} (h : isDigitChar d = true) :
    isWs d = false ∧ d ≠ ']' ∧ d ≠ rbrace := by
  have hd : 48 ≤ d.toNat ∧ d.toNat ≤ 57 := by simpa [isDigitChar] using h
  refine ⟨?_, ?_, ?_⟩
  · cases hw : isWs d
    · rfl
    · exfalso
      have : ((d.toNat = 32 ∨ d.toNat = 9) ∨ d.toNat = 10) ∨ d.toNat = 13 := by
        simpa [isWs] using hw
      omega
  · intro he
    rw [he] at h
    exact absurd h (by decide)
  · intro he
    rw [he] at h
    exact absurd h (by decide)

theorem renderJ_ne_nil (lvl : Nat) (j : Json) : renderJ lvl j ≠ [] := by
  cases j with
  | null => rw [renderJ]; simp
  | bool b => cases b <;> (rw [renderJ]; simp)
  | num i =>
    rw [renderJ, intDec]
    split
    · simp
    · exact natDec_ne_nil _
  | str s => rw [renderJ, renderStr]; simp
  | arr xs => cases xs <;> (rw [renderJ] <;> simp)
  | obj ms =>
    match ms with
    | [] => rw [renderJ]; simp
    | (k, v) :: ms' => rw [renderJ]; simp

theorem renderJ_head_facts (lvl : Nat) (j : Json) : ∀ {c : Char} {t : List Char},
    renderJ lvl j = c :: t → isWs c = false ∧ c ≠ ']' ∧ c ≠ rbrace := by
  intro c t h
  cases j with
  | null =>
    rw [renderJ] at h
    injection h with h1 h2
    rw [← h1]
    exact ⟨by decide, by decide, by decide⟩
  | bool b =>
    cases b <;>
      (rw [renderJ] at h
       injection h with h1 h2
       rw [← h1]
       exact ⟨by decide, by decide, by decide⟩)
  | num i =>
    rw [renderJ, intDec] at h
    split at h
    · injection h with h1 h2
      rw [← h1]
      exact ⟨by decide, by decide, by decide⟩
    · exact digit_facts (natDec_head_digit _ h)
  | str s =>
    rw [renderJ, renderStr] at h
    injection h with h1 h2
    rw [← h1]
    exact ⟨by decide, by decide, by decide⟩
  | arr xs =>
    cases xs with
    | nil =>
      rw [renderJ] at h
      injection h with h1 h2
      rw [← h1]
      exact ⟨by decide, by decide, by decide⟩
    | cons x xs' =>
      rw [renderJ] at h
      simp only [List.cons_append, List.append_assoc] at h
      injection h with h1 h2
      rw [← h1]
      exact ⟨by decide, by decide, by decide⟩
  | obj ms =>
    match ms with
    | [] =>
      rw [renderJ] at h
      injection h with h1 h2
      rw [← h1]
      exact ⟨by decide, by decide, by decide⟩
    | (k, v) :: ms' =>
      rw [renderJ] at h
      simp only [List.cons_append, List.append_assoc] at h
      injection h with h1 h2
      rw [← h1]
      exact ⟨by decide, by decide, by decide⟩

theorem skipWs_renderJ (lvl : Nat) (j : Json) (l : List Char) :
    ∃ c t, renderJ lvl j ++ l = c :: t ∧ isWs c = false ∧ c ≠ ']' ∧ c ≠ rbrace
      ∧ skipWs (renderJ lvl j ++ l) = c :: t := by
  cases hr : renderJ lvl j with
  | nil => exact absurd hr (renderJ_ne_nil lvl j)
  | cons c t =>
    obtain ⟨hws, hbr, hrb⟩ := renderJ_head_facts lvl j hr
    exact ⟨c, t ++ l, by rw [List.cons_append], hws, hbr, hrb,
      by rw [List.cons_append, skipWs_cons hws]⟩

theorem sizeJ_pos (j : Json) : 1 ≤ sizeJ j := by
  cases j <;> (rw [sizeJ]) <;> omega

mutual

theorem sizeJ_le_renderJ (lvl : Nat) (j : Json) : sizeJ j ≤ (renderJ lvl j).length := by
  cases j with
  | null => rw [sizeJ, renderJ]; simp
  | bool b => cases b <;> (rw [sizeJ, renderJ]; simp)
  | num i =>
    rw [sizeJ, renderJ, intDec]
    split
    · simp
    · exact Nat.succ_le_of_lt (List.length_pos.mpr (natDec_ne_nil _))
  | str s => rw [sizeJ, renderJ, renderStr]; simp
  | arr xs =>
    cases xs with
    | nil => rw [sizeJ, renderJ, sizeElems]; simp
    | cons x xs' =>
      rw [sizeJ, renderJ, sizeElems]
      have h1 := sizeJ_le_renderJ (lvl + 1) x
      have h2 := sizeElems_le_renderElems (lvl + 1) xs'
      simp only [List.cons_append, List.length_cons, List.length_append]
      omega
  | obj ms =>
    match ms with
    | [] => rw [sizeJ, renderJ, sizeMembers]; simp
    | (k, v) :: ms' =>
      rw [sizeJ, renderJ, sizeMembers]
      have h1 := sizeJ_le_renderJ (lvl + 1) v
      have h2 := sizeMembers_le_renderMembersTail (lvl + 1) ms'
      simp only [List.cons_append, List.length_cons, List.length_append]
      omega

theorem sizeElems_le_renderElems (lvl : Nat) (xs : List Json) :
    sizeElems xs ≤ (renderElems lvl xs).length := by
  cases xs with
  | nil => rw [sizeElems, renderElems]; simp
  | cons x xs' =>
    rw [sizeElems, renderElems]
    have h1 := sizeJ_le_renderJ lvl x
    have h2 := sizeElems_le_renderElems lvl xs'
    simp only [List.cons_append, List.length_cons, List.length_append]
    omega

theorem sizeMembers_le_renderMembersTail (lvl : Nat) (ms : List (String × Json)) :
    sizeMembers ms ≤ (renderMembersTail lvl ms).length := by
  match ms with
  | [] => rw [sizeMembers, renderMembersTail]; simp
  | (k, v) :: ms' =>
    rw [sizeMembers, renderMembersTail]
    have h1 := sizeJ_le_renderJ lvl v
    have h2 := sizeMembers_le_renderMembersTail lvl ms'
    simp only [List.cons_append, List.length_cons, List.length_append]
    omega

end

theorem mkData (s : String) : String.mk s.data = s := rfl

theorem parseStrBody_escStr_auto (cs : List Char) (r : List Char) :
    parseStrBody ((escStr cs ++ dq :: r).length + 1) (escStr cs ++ dq :: r)
      = some (cs, r) := by
  apply parseStrBody_escStr
  simp only [List.length_append, List.length_cons]
  have := escStr_length cs
  omega

theorem digit_not_kw {d : Char} (h : isDigitChar d = true) :
    (d = 'n') = False ∧ (d = 't') = False ∧ (d = 'f') = False ∧ (d = dq) = False
      ∧ (d = '-') = False := by
  refine ⟨?_, ?_, ?_, ?_, ?_⟩ <;>
    (apply eq_false; intro he; rw [he] at h; exact absurd h (by decide))

/-! ### The serialize-then-parse round trip -/

theorem parse_render : ∀ fuel : Nat,
    (∀ (j : Json) (lvl : Nat) (w rest : List Char), sizeJ j ≤ fuel →
        w.all isWs = true → headOk rest = true →
        parseVal fuel (w ++ renderJ lvl j ++ rest) = some (j, rest)) ∧
    (∀ (x : Json) (xs : List Json) (lvl : Nat) (w1 w2 rest : List Char),
        sizeElems (x :: xs) ≤ fuel → w1.all isWs = true → w2.all isWs = true →
        headOk rest = true →
        parseElems fuel (w1 ++ renderJ lvl x ++ renderElems lvl xs ++ w2 ++ ']' :: rest)
          = some (x :: xs, rest)) ∧
    (∀ (k : String) (v : Json) (ms : List (String × Json)) (lvl : Nat)
        (w1 w2 rest : List Char),
        sizeMembers ((k, v) :: ms) ≤ fuel → w1.all isWs = true → w2.all isWs = true →
        headOk rest = true →
        parseMembers fuel (w1 ++ renderStr k ++ ':' :: ' ' :: renderJ lvl v
            ++ renderMembersTail lvl ms ++ w2 ++ rbrace :: rest)
          = some ((k, v) :: ms, rest)) := by
  intro fuel
  induction fuel with
  | zero =>
    refine ⟨?_, ?_, ?_⟩
    · intro j lvl w rest hsz hw hr
      have := sizeJ_pos j
      omega
    · intro x xs lvl w1 w2 rest hsz hw1 hw2 hr
      rw [sizeElems] at hsz
      omega
    · intro k v ms lvl w1 w2 rest hsz hw1 hw2 hr
      rw [sizeMembers] at hsz
      omega
  | succ f ih =>
    obtain ⟨ihV, ihE, ihM⟩ := ih
    refine ⟨?_, ?_, ?_⟩
    · intro j lvl w rest hsz hw hr
      rw [parseVal, List.append_assoc, skipWs_allWs hw]
      cases j with
      | null =>
        rw [renderJ]
        simp only [List.cons_append, List.nil_append]
        rw [skipWs_cons (by decide)]
        rfl
      | bool b =>
        cases b with
        | true =>
          rw [renderJ]
          simp only [List.cons_append, List.nil_append]
          rw [skipWs_cons (by decide)]
          rfl
        | false =>
          rw [renderJ]
          simp only [List.cons_append, List.nil_append]
          rw [skipWs_cons (by decide)]
          rfl
      | num i =>
        rw [renderJ, intDec]
        by_cases hi : i < 0
        · rw [if_pos hi]
          cases hnd : natDec i.natAbs with
          | nil => exact absurd hnd (natDec_ne_nil _)
          | cons d t =>
            have hdd := natDec_head_digit _ hnd
            have hpd : parseDigits (t ++ rest) (d.toNat - 48) = (i.natAbs, rest) := by
              have h0 := parseDigits_natDec0 i.natAbs hr
              rw [hnd, List.cons_append, parseDigits, if_pos hdd, Nat.zero_mul,
                Nat.zero_add] at h0
              exact h0
            have hni : -((i.natAbs : Int)) = i := by omega
            simp only [List.cons_append]
            rw [skipWs_cons (by decide)]
            simp +decide only [hdd, hpd, hni, ite_true, ite_false, List.cons_append, List.append_assoc, List.nil_append]
        · rw [if_neg hi]
          cases hnd : natDec i.toNat with
          | nil => exact absurd hnd (natDec_ne_nil _)
          | cons d t =>
            have hdd := natDec_head_digit _ hnd
            obtain ⟨hwsd, hd1, hd2⟩ := digit_facts hdd
            obtain ⟨hk1, hk2, hk3, hk4, hk5⟩ := digit_not_kw hdd
            have hpd : parseDigits (t ++ rest) (d.toNat - 48) = (i.toNat, rest) := by
              have h0 := parseDigits_natDec0 i.toNat hr
              rw [hnd, List.cons_append, parseDigits, if_pos hdd, Nat.zero_mul,
                Nat.zero_add] at h0
              exact h0
            have hni : ((i.toNat : Int)) = i := Int.toNat_of_nonneg (by omega)
            simp only [List.cons_append]
            rw [skipWs_cons hwsd]
            simp +decide only [hk1, hk2, hk3, hk4, hk5, hdd, hpd, hni, ite_true, ite_false, List.cons_append, List.append_assoc, List.nil_append]
      | str s =>
        rw [renderJ, renderStr]
        simp only [List.cons_append, List.append_assoc, List.singleton_append, List.nil_append]
        rw [skipWs_cons (by decide)]
        simp +decide only [parseStrBody_escStr_auto, mkData, ite_true, ite_false, List.nil_append]
      | arr xs =>
        cases xs with
        | nil =>
          rw [renderJ]
          simp only [List.cons_append, List.nil_append]
          rw [skipWs_cons (by decide)]
          rfl
        | cons x xs' =>
          rw [renderJ]
          simp only [List.cons_append, List.append_assoc, List.nil_append]
          rw [skipWs_cons (by decide)]
          obtain ⟨c0, t0, heq0, hws0, hbr0, hrb0, hskip0⟩ :=
            skipWs_renderJ (lvl + 1) x
              (renderElems (lvl + 1) xs' ++ (nlIndent lvl ++ ']' :: rest))
          have hpe := ihE x xs' (lvl + 1) (nlIndent (lvl + 1)) (nlIndent lvl) rest
            (by rw [sizeJ] at hsz; omega) (nlIndent_allWs _) (nlIndent_allWs _) hr
          simp only [List.append_assoc, List.nil_append] at hpe
          simp +decide only [skipWs_allWs (nlIndent_allWs (lvl + 1)), hskip0,
            eq_false hbr0, hpe, ite_true, ite_false, List.cons_append, List.append_assoc, List.nil_append]
      | obj ms =>
        cases ms with
        | nil =>
          rw [renderJ]
          simp only [List.cons_append, List.nil_append]
          rw [skipWs_cons (by decide)]
          rfl
        | cons m ms' =>
          obtain ⟨k, v⟩ := m
          rw [renderJ]
          simp only [renderStr, List.cons_append, List.append_assoc,
            List.singleton_append]
          rw [skipWs_cons (by decide)]
          have hpm := ihM k v ms' (lvl + 1) (nlIndent (lvl + 1)) (nlIndent lvl) rest
            (by rw [sizeJ] at hsz; omega) (nlIndent_allWs _) (nlIndent_allWs _) hr
          simp only [renderStr, List.append_assoc, List.cons_append,
            List.singleton_append, List.nil_append] at hpm
          simp +decide only [skipWs_allWs (nlIndent_allWs (lvl + 1)),
            skipWs_cons (by decide : isWs dq = false), hpm, ite_true, ite_false, List.cons_append, List.append_assoc, List.nil_append]
    · intro x xs lvl w1 w2 rest hsz hw1 hw2 hr
      rw [parseElems]
      have hrest : headOk (renderElems lvl xs ++ (w2 ++ ']' :: rest)) = true := by
        cases xs with
        | nil =>
          rw [renderElems, List.nil_append]
          exact headOk_append hw2 (by rw [headOk]; decide)
        | cons y ys =>
          rw [renderElems]
          simp only [List.cons_append]
          rw [headOk]
          decide
      have hpv := ihV x lvl w1 (renderElems lvl xs ++ (w2 ++ ']' :: rest))
        (by rw [sizeElems] at hsz; omega) hw1 hrest
      simp only [List.append_assoc, List.nil_append] at hpv ⊢
      rw [hpv]
      cases xs with
      | nil =>
        simp +decide only [renderElems, List.nil_append, skipWs_allWs hw2,
          skipWs_cons (by decide : isWs ']' = false), ite_true, ite_false]
      | cons y ys =>
        rw [renderElems]
        simp only [List.cons_append, List.append_assoc, List.nil_append]
        rw [skipWs_cons (by decide)]
        have hpe := ihE y ys lvl (nlIndent lvl) w2 rest
          (by rw [sizeElems] at hsz; omega) (nlIndent_allWs _) hw2 hr
        simp only [List.append_assoc, List.nil_append] at hpe
        simp +decide only [hpe, ite_true, ite_false, List.cons_append, List.append_assoc, List.nil_append]
    · intro k v ms lvl w1 w2 rest hsz hw1 hw2 hr
      rw [parseMembers]
      simp only [renderStr, List.cons_append, List.append_assoc, List.singleton_append]
      rw [skipWs_allWs hw1, skipWs_cons (by decide)]
      cases ms with
      | nil =>
        have hpv := ihV v lvl [' '] (w2 ++ rbrace :: rest)
          (by rw [sizeMembers] at hsz; omega) (by decide)
          (headOk_append hw2 (by rw [headOk]; decide))
        simp only [List.append_assoc, List.singleton_append, List.cons_append,
          List.nil_append] at hpv
        simp +decide only [renderMembersTail, List.nil_append, List.cons_append,
          List.append_assoc, parseStrBody_escStr_auto,
          skipWs_cons (by decide : isWs ':' = false), hpv, skipWs_allWs hw2,
          skipWs_cons (by decide : isWs rbrace = false), mkData, ite_true, ite_false]
      | cons m ms' =>
        obtain ⟨k2, v2⟩ := m
        have hpv := ihV v lvl [' ']
          (renderMembersTail lvl ((k2, v2) :: ms') ++ (w2 ++ rbrace :: rest))
          (by rw [sizeMembers] at hsz; omega) (by decide)
          (by rw [renderMembersTail]
              simp only [List.cons_append]
              rw [headOk]
              decide)
        simp only [renderMembersTail, List.append_assoc, List.singleton_append,
          List.cons_append, List.nil_append] at hpv
        have hpm := ihM k2 v2 ms' lvl (nlIndent lvl) w2 rest
          (by rw [sizeMembers] at hsz; omega) (nlIndent_allWs _) hw2 hr
        simp only [List.append_assoc, List.cons_append, List.nil_append] at hpm
        simp +decide only [renderMembersTail, List.cons_append, List.append_assoc,
          List.nil_append, parseStrBody_escStr_auto,
          skipWs_cons (by decide : isWs ':' = false), hpv,
          skipWs_cons (by decide : isWs ',' = false), hpm, mkData,
          ite_true, ite_false]

theorem parseJson_renderJ (j : Json) : parseJson (renderJ 0 j) = some j := by
  rw [parseJson]
  have h := (parse_render ((renderJ 0 j).length + 1)).1 j 0 [] []
    (by have := sizeJ_le_renderJ 0 j; omega) rfl rfl
  rw [List.nil_append, List.append_nil] at h
  rw [h]
  rfl

theorem parseArtifact_renderArtifact (docs : List Json) :
    parseArtifact (renderArtifact docs) = some docs := by
  rw [renderArtifact, parseArtifact, parseJson_renderJ]

/-! ### Configuration loading (`load_config`)

The YAML configuration is a mapping from group names to mappings of option
names to values; `safe_load` preserves document order, so it is modelled
as an ordered association list of groups, each group an ordered
association list of options. `load_config` folds `flat_config.update(**options)`
over `config_yaml.values()`; a Python `dict` is modelled by its lookup
function. -/

/-- Value of key `k` under Python `dict` semantics for an ordered binding
list: the last binding of `k` wins, `none` when `k` is unbound. -/
def lastBinding {V : Type} (g : List (String × V)) (k : String) : Option V :=
  match g with
  | [] => none
  | (k', v) :: t =>
    match lastBinding t k with
    | some w => some w
    | none => if k = k' then some v else none

/-- Effect of `d.update(**kvs)` on the lookup function of the dict `d`:
every binding of `kvs` overwrites, in order. -/
def dictUpdate {V : Type} (d : String → Option V) (kvs : List (String × V)) :
    String → Option V :=
  kvs.foldl (fun acc kv => fun q => if q = kv.1 then some kv.2 else acc q) d

/-- The flattened configuration: starting from the empty dict, the options
of every group are folded in with `flat_config.update(**options)`, in
group order. -/
def load_config {V : Type} (config_yaml : List (String × List (String × V))) :
    String → Option V :=
  config_yaml.foldl (fun acc g => dictUpdate acc g.2) (fun _ => none)

/-- Reference lookup: the value of `k` in the last group that binds `k`
(under dict semantics inside the group), `none` if no group binds it. -/
def lastGroupValue {V : Type} (groups : List (String × List (String × V)))
    (k : String) : Option V :=
  match groups with
  | [] => none
  | g :: gs =>
    match lastGroupValue gs k with
    | some v => some v
    | none => lastBinding g.2 k

theorem dictUpdate_eq {V : Type} (g : List (String × V)) :
    ∀ (d : String → Option V) (k : String),
    dictUpdate d g k = match lastBinding g k with
                       | some v => some v
                       | none => d k := by
  induction g with
  | nil => intro d k; rfl
  | cons kv t ih =>
    intro d k
    obtain ⟨k', v⟩ := kv
    show dictUpdate (fun q => if q = k' then some v else d q) t k = _
    rw [ih]
    simp only [lastBinding]
    cases lastBinding t k with
    | some w => rfl
    | none =>
      by_cases hk : k = k' <;> simp [hk]

theorem load_config_foldl {V : Type} (groups : List (String × List (String × V))) :
    ∀ (d : String → Option V) (k : String),
    groups.foldl (fun acc g => dictUpdate acc g.2) d k
      = match lastGroupValue groups k with
        | some v => some v
        | none => d k := by
  induction groups with
  | nil => intro d k; rfl
  | cons g gs ih =>
    intro d k
    rw [List.foldl_cons, ih]
    simp only [lastGroupValue]
    cases lastGroupValue gs k with
    | some w => rfl
    | none =>
      cases h : lastBinding g.2 k with
      | some w => rw [dictUpdate_eq, h]
      | none => rw [dictUpdate_eq, h]

theorem load_config_eq {V : Type} (groups : List (String × List (String × V)))
    (k : String) : load_config groups k = lastGroupValue groups k := by
  rw [load_config, load_config_foldl]
  cases lastGroupValue groups k <;> rfl

/-! ### Paths and filenames (`__init__`, `process_index`) -/

/-- Host sanitization `self.__host.replace(".", "_")`: every dot of the
host becomes an underscore. -/
def sanitizeHost (host : String) : String :=
  String.mk (host.data.map (fun c => if c = '.' then '_' else c))

/-- Output path of `__init__`:
`Path(directory).joinpath(host.replace(".", "_"))`. -/
def outputPath (directory host : String) : String :=
  directory ++ "/" ++ sanitizeHost host

/-- Artifact filename derived in `process_index`:
the f-string `{index_name}_{int(time())}.json` with `ts` the integer unix
timestamp. -/
def fileName (index_name : String) (ts : Nat) : String :=
  index_name ++ "_" ++ String.mk (natDec ts) ++ ".json"

theorem fileName_inj_ts {index_name : String} {ts₁ ts₂ : Nat}
    (h : fileName index_name ts₁ = fileName index_name ts₂) : ts₁ = ts₂ := by
  apply natDec_injective
  have hd := congrArg String.data h
  simp only [fileName, String.data_append] at hd
  exact List.append_cancel_left (List.append_cancel_right hd)

/-! ### File writes (`dump_to_file`) and one index's export (`process_index`) -/

/-- Effect of `dump_to_file` on the files at the output path:
`open(file=self.__path.joinpath(filename), mode="w")` creates or truncates
the file at the final artifact path directly (no temporary path, no
rename), and `json.dump` streams the serialization into it. `interrupt =
none` is a write that completes (second component `true`); `interrupt =
some n` is a write that raises after `n` characters — the partial content
stays on disk at the artifact path, nothing removes it. -/
def dump_to_file (fs : List (String × List Char)) (path : String)
    (content : List Char) (interrupt : Option Nat) :
    List (String × List Char) × Bool :=
  match interrupt with
  | none => ((path, content) :: fs, true)
  | some n => ((path, content.take n) :: fs, false)

/-- One index's export (`process_index`) with an uninterrupted write: the
scan collects `results = list(generator)` from the pages of `docs`, the
single `dump_to_file` call writes their serialization to
`self.__path.joinpath(f"{index_name}_{int(time())}.json")`, and
`len(results)` is printed. The first component is the list of files
written, the second the printed document count. -/
def process_index (directory host : String) (P : Nat) (docs : List Json)
    (index_name : String) (ts : Nat) : List (String × List Char) × Nat :=
  let results := scanDocs P docs
  ((dump_to_file [] (outputPath directory host ++ "/" ++ fileName index_name ts)
      (renderArtifact results) none).1,
    results.length)

/-! ### The run (`__init__`, `get_indices`, `run`) -/

/-- Result of the catalog listing `self.__client.indices.get(index="*")`:
the names of all indices, or a raised error when the store cannot be
reached or rejects the request. -/
inductive ListingResult where
  | ok (indices : List String) : ListingResult
  | storeUnavailable : ListingResult

/-- Observable state of a run: directories created, files created, export
tasks submitted to the pool, and whether an exception escaped. -/
structure DumpState where
  dirsCreated : List String
  filesCreated : List (String × List Char)
  tasksScheduled : List String
  raised : Bool

/-- Effect of `ElasticDump.__init__`: before any catalog access it creates
the output directory `Path(directory).joinpath(host.replace(".", "_"))`
with `mkdir(parents=True, exist_ok=True)`; no file has been written and no
task scheduled. -/
def initDumper (directory host : String) : DumpState :=
  { dirsCreated := [outputPath directory host]
    filesCreated := []
    tasksScheduled := []
    raised := false }

/-- Effect of `ElasticDump.run` on the state `__init__` left: `run` calls
`self.get_indices()` first; on `StoreUnavailable` that exception
propagates out of `run` before the executor loop, so there is no task
submission and no write; on success one task per index is submitted. -/
def runDump (st : DumpState) (listing : ListingResult) : DumpState :=
  match listing with
  | .storeUnavailable => { st with raised := true }
  | .ok indices => { st with tasksScheduled := st.tasksScheduled ++ indices }

/-- Outcome of one index's export task: the document count on success, or
the kind of exception the task raised (`CursorExpired`, scan failure,
write failure). -/
inductive TaskOutcome where
  | ok (docCount : Nat) : TaskOutcome
  | err (kind : String) : TaskOutcome

/-- Lines printed by one task: `process_index` prints
`f"Index: {index_name}, documents: {len(results)}"` after a completed
scan; a task that raises prints nothing, and its exception is stored in
the `Future` object. -/
def taskOutput (index_name : String) : TaskOutcome → List String
  | .ok n => ["Index: " ++ index_name ++ ", documents: " ++ String.mk (natDec n)]
  | .err _ => []

/-- What the coordinator produces and observes in `run`. -/
structure RunReport where
  outputLines : List String
  outcomesInspected : List (String × TaskOutcome)
  errorLines : List String

/-- The coordinator side of `run`: it submits one task per index and drops
the `Future` that `executor.submit` returns, then blocks in
`shutdown(wait=True)`. The output consists only of the lines the tasks
print themselves; `run` inspects no `Future` (so no task outcome, success
or failure, is observed by the coordinator) and contains no error
reporting of any kind. -/
def runReport (indices : List String) (outcome : String → TaskOutcome) : RunReport :=
  { outputLines := (indices.map (fun i => taskOutput i (outcome i))).flatten
    outcomesInspected := []
    errorLines := [] }

/-! ### The global-name bug in `run` -/

/-- An `ElasticDump` instance as `run` sees it: its object identity and
the index names its `get_indices()` returns. -/
structure Dumper where
  id : Nat
  indices : List String
deriving DecidableEq

/-- A task handed to `executor.submit`: the object whose bound method
`process_index` was submitted, and the index argument. -/
structure SubmittedTask where
  receiver : Nat
  index_name : String
deriving DecidableEq

/-- How a call of `run` ends: normally, with the tasks submitted over its
lifetime, or by raising `NameError`, with the tasks submitted before the
raise. -/
inductive RunCall where
  | completed (tasks : List SubmittedTask) : RunCall
  | raisedNameError (tasksSubmitted : List SubmittedTask) : RunCall
deriving DecidableEq

/-- Decision that a `run` call returned rather than raised. -/
def returnsNormally : RunCall → Prop
  | .completed _ => True
  | .raisedNameError _ => False

/-- The submission loop of `run`: line 92 submits
`executor.submit(dumper.process_index, es_index)`, where `dumper` is the
module-level global, not `self` — `self.get_indices()` supplies the
indices, but the receiver of every task is the global. When the global
name is unbound, evaluating `dumper` raises `NameError` in `run`s own
frame at the first loop iteration, before any task is submitted; with no
indices the loop body never runs. -/
def run (self : Dumper) (globalDumper : Option Dumper) : RunCall :=
  match globalDumper with
  | some g => .completed (self.indices.map (fun i => ⟨g.id, i⟩))
  | none =>
    match self.indices with
    | [] => .completed []
    | _ :: _ => .raisedNameError []

/-! ### The worker pool (`ThreadPoolExecutor(max_workers=K)`)

Modelled from the library contract the spec relies on (§5): the executor
keeps a queue of submitted tasks and spawns at most `max_workers` worker
threads; each worker executes one task at a time, taking the next task
from the queue only after finishing the previous one. A task therefore
executes only while some worker slot holds it. -/

/-- State of the pool: the queued tasks and what each of the `K` worker
slots is currently executing. -/
structure PoolState (K : Nat) where
  pending : List String
  workers : Fin K → Option String

/-- The pool right after `run` has submitted every index export. -/
def initPool (K : Nat) (indices : List String) : PoolState K :=
  { pending := indices, workers := fun _ => none }

/-- One scheduling step of the executor: an idle worker starts the next
queued task, or a worker finishes its task. -/
inductive PoolStep (K : Nat) : PoolState K → PoolState K → Prop where
  | start (s : PoolState K) (w : Fin K) (i : String) (rest : List String)
      (hw : s.workers w = none) (hp : s.pending = i :: rest) :
      PoolStep K s ⟨rest, Function.update s.workers w (some i)⟩
  | finish (s : PoolState K) (w : Fin K) (i : String) (hw : s.workers w = some i) :
      PoolStep K s ⟨s.pending, Function.update s.workers w none⟩

/-- Reachability under executor steps. -/
inductive PoolReach (K : Nat) : PoolState K → PoolState K → Prop where
  | refl (s : PoolState K) : PoolReach K s s
  | step {s t u : PoolState K} : PoolReach K s t → PoolStep K t u → PoolReach K s u

/-- The tasks executing simultaneously: one per busy worker slot. -/
def runningTasks {K : Nat} (s : PoolState K) : List String :=
  (List.finRange K).filterMap s.workers

/-- Helper: with no group of `post` binding `k`, the reference lookup over
`post` is empty. -/
theorem lastGroupValue_none {V : Type} (post : List (String × List (String × V)))
    (k : String) (h : ∀ g' ∈ post, lastBinding g'.2 k = none) :
    lastGroupValue post k = none := by
  induction post with
  | nil => rfl
  | cons g gs ih =>
    rw [lastGroupValue, ih (fun g' hg' => h g' (List.mem_cons_of_mem g hg'))]
    exact h g (List.mem_cons_self g gs)

/-- Helper: the serialized artifact of a single `null` document. -/
theorem renderArtifact_null :
    renderArtifact [Json.null] = ['[', '\n', ' ', ' ', 'n', 'u', 'l', 'l', '\n', ']'] := by
  rw [renderArtifact, renderJ, renderJ, renderElems, nlIndent, nlIndent]
  norm_num [List.replicate]

/-! ### The claims -/

/-- C1: for every index whose store holds `docs` documents and every
positive page size `P`, `process_index` obtains exactly `docs.length`
documents from the scan (`results = list(generator)`), however the
documents split over the `⌈D/P⌉` pages, and for an empty index it still
writes an artifact whose content is the empty JSON array `[]`. -/
theorem claim1_process_index_complete (directory host index_name : String)
    (ts P : Nat) (docs : List Json) (hP : 0 < P) :
    (process_index directory host P docs index_name ts).2 = docs.length
    ∧ (paginate P docs).length = (docs.length + P - 1) / P
    ∧ (docs = [] → (process_index directory host P docs index_name ts).1
        = [(outputPath directory host ++ "/" ++ fileName index_name ts, ['[', ']'])]) := by
  refine ⟨?_, paginate_length P hP docs, ?_⟩
  · simp only [process_index, scanDocs_eq]
  · intro h
    subst h
    simp only [process_index, scanDocs_eq, dump_to_file, renderArtifact]
    rw [renderJ]

/-- Witness for C1: the spec scenario with page size 2 and an index of
three documents — 3 documents collected over ⌈3/2⌉ = 2 pages. -/
theorem claim1_witness :
    0 < 2
    ∧ ((process_index "dump" "127.0.0.1" 2 [Json.null, Json.null, Json.null] "idx" 5).2
        = [Json.null, Json.null, Json.null].length
      ∧ (paginate 2 [Json.null, Json.null, Json.null]).length
          = ([Json.null, Json.null, Json.null].length + 2 - 1) / 2
      ∧ ([Json.null, Json.null, Json.null] = ([] : List Json) →
          (process_index "dump" "127.0.0.1" 2 [Json.null, Json.null, Json.null] "idx" 5).1
            = [(outputPath "dump" "127.0.0.1" ++ "/" ++ fileName "idx" 5, ['[', ']'])])) :=
  ⟨by decide, claim1_process_index_complete "dump" "127.0.0.1" "idx" 5 2
    [Json.null, Json.null, Json.null] (by decide)⟩

/-- C2 (code bug, evaluated at the failing input): when the single index
`"a"` raises `CursorExpired` inside its task, `run` observes no outcome
and emits no error line — the coordinator's report is empty in every
component, because `run` drops the `Future` of `executor.submit`. The
claim (and §9 of the spec, which calls this a bug to fix) requires the
failure to be surfaced as a per-index outcome with a one-line error. -/
theorem claim2_task_failure_invisible :
    (runReport ["a"] (fun _ => TaskOutcome.err "CursorExpired")).errorLines = []
    ∧ (runReport ["a"] (fun _ => TaskOutcome.err "CursorExpired")).outcomesInspected = []
    ∧ (runReport ["a"] (fun _ => TaskOutcome.err "CursorExpired")).outputLines = [] :=
  ⟨rfl, rfl, rfl⟩

/-- C3 (code bug, evaluated at the failing input): `dump_to_file` opens
the final artifact path directly with mode `"w"`; a write of the one-null
artifact that fails after its first character raises, yet leaves a file at
the full artifact path whose content `['[']` is not the complete artifact —
neither a temp-path-then-rename write nor a failure with no artifact left
behind, as the claim requires. -/
theorem claim3_partial_write_leaves_artifact :
    (dump_to_file [] (outputPath "dump" "127.0.0.1" ++ "/" ++ fileName "idx" 5)
        (renderArtifact [Json.null]) (some 1)).2 = false
    ∧ (dump_to_file [] (outputPath "dump" "127.0.0.1" ++ "/" ++ fileName "idx" 5)
        (renderArtifact [Json.null]) (some 1)).1
      = [(outputPath "dump" "127.0.0.1" ++ "/" ++ fileName "idx" 5, ['['])]
    ∧ ['['] ≠ renderArtifact [Json.null] := by
  refine ⟨rfl, ?_, ?_⟩
  · simp [dump_to_file, renderArtifact_null]
  · rw [renderArtifact_null]
    decide

/-- C4 counterexample: with the store at host `127.0.0.1` and output
directory `dump`, a run whose catalog listing fails with
`StoreUnavailable` still has a created directory — `__init__` created
`dump/127_0_0_1` before any catalog access — contradicting the claim that
no directories are created. -/
theorem claim4_counterexample :
    (runDump (initDumper "dump" "127.0.0.1") ListingResult.storeUnavailable).dirsCreated
      ≠ [] := by
  simp [runDump, initDumper]

/-- C4 as amended: if the catalog listing fails with `StoreUnavailable`,
zero export tasks are scheduled, no files are created, and the single
fatal error propagates out of `run`; however the output directory
`<outputDirectory>/<host-sanitized>` has already been created during
`__init__`, before the listing. -/
theorem claim4_store_unavailable (directory host : String) :
    (runDump (initDumper directory host) ListingResult.storeUnavailable).tasksScheduled = []
    ∧ (runDump (initDumper directory host) ListingResult.storeUnavailable).filesCreated = []
    ∧ (runDump (initDumper directory host) ListingResult.storeUnavailable).raised = true
    ∧ (runDump (initDumper directory host) ListingResult.storeUnavailable).dirsCreated
        = [outputPath directory host] :=
  ⟨rfl, rfl, rfl, rfl⟩

/-- C5: the documents serialized into an artifact by
`json.dump(results, f, indent=2)` and parsed back by `json.load` equal the
scanned document list itself — list equality, which is stronger than the
claimed equality as unordered multisets of structurally-equal records; the
second conjunct states the multiset form. -/
theorem claim5_serialize_parse_roundtrip (docs : List Json) :
    parseArtifact (renderArtifact docs) = some docs
    ∧ (parseArtifact (renderArtifact docs)).map (fun l => Multiset.ofList l)
        = some (Multiset.ofList docs) := by
  refine ⟨parseArtifact_renderArtifact docs, ?_⟩
  rw [parseArtifact_renderArtifact docs]
  rfl

/-- C6 counterexample: an instance with one index and no module-level
`dumper` binding — `run` raises `NameError` instead of returning normally,
contradicting the claim that every submitted task fails while `run` itself
returns normally (no task is submitted at all). -/
theorem claim6_counterexample :
    ¬ returnsNormally (run ⟨0, ["a"]⟩ none) := by
  simp [run, returnsNormally]

/-- C6 as amended: the tasks submitted by `run` invoke `process_index` on
the module-level global `dumper`, not on the instance `run` was called on
(the instance only supplies the index list); when no global is bound and
at least one index exists, evaluating `dumper` raises `NameError` inside
`run` itself at the first submission, so `run` raises — without having
submitted any task — rather than returning normally. -/
theorem claim6_global_receiver :
    (∀ (self g : Dumper),
        run self (some g) = RunCall.completed (self.indices.map (fun i => ⟨g.id, i⟩)))
    ∧ (∀ (self : Dumper) (i : String) (is : List String), self.indices = i :: is →
        run self none = RunCall.raisedNameError []) := by
  constructor
  · intro self g
    rw [run]
  · intro self i is h
    rw [run, h]

/-- Witness for C6: a concrete instance (id 0, one index `"a"`) with a
distinct global (id 1): the submitted task's receiver is the global; with
no global bound, `run` raises having submitted nothing. -/
theorem claim6_witness :
    run ⟨0, ["a"]⟩ (some ⟨1, ["b"]⟩) = RunCall.completed [⟨1, "a"⟩]
    ∧ run ⟨0, ["a"]⟩ none = RunCall.raisedNameError [] :=
  ⟨claim6_global_receiver.1 ⟨0, ["a"]⟩ ⟨1, ["b"]⟩,
    claim6_global_receiver.2 ⟨0, ["a"]⟩ "a" [] rfl⟩

/-- C7: in every state the pool reaches from the submitted exports — also
with more indices than workers — the tasks executing simultaneously are
the tasks held by the `K` worker slots, so never more than `K`. -/
theorem claim7_concurrency_bound (K : Nat) (indices : List String) (s : PoolState K)
    (hK : K < indices.length) (hreach : PoolReach K (initPool K indices) s) :
    (runningTasks s).length ≤ K := by
  have h1 := List.length_filterMap_le s.workers (List.finRange K)
  simpa [List.length_finRange, runningTasks] using h1

/-- Witness for C7: a pool of one worker with two submitted indices, at
the initial state. -/
theorem claim7_witness :
    1 < (["a", "b"] : List String).length
    ∧ (runningTasks (initPool 1 ["a", "b"])).length ≤ 1 :=
  ⟨by decide, claim7_concurrency_bound 1 ["a", "b"] (initPool 1 ["a", "b"]) (by decide)
    (PoolReach.refl _)⟩

/-- C8: when the groups before and at `g` may bind the option name `k` but
no later group binds it, the flattened configuration maps `k` to `g`'s
value for it — the last group processed wins; an option bound in only one
group (`pre` and `post` not binding it) keeps its original value as the
instance where `g` is that group. -/
theorem claim8_last_group_wins {V : Type} (pre post : List (String × List (String × V)))
    (g : String × List (String × V)) (k : String) (v : V)
    (hpost : ∀ g' ∈ post, lastBinding g'.2 k = none)
    (hbind : lastBinding g.2 k = some v) :
    load_config (pre ++ g :: post) k = some v := by
  rw [load_config_eq]
  induction pre with
  | nil =>
    rw [List.nil_append, lastGroupValue, lastGroupValue_none post k hpost]
    exact hbind
  | cons p pre' ih =>
    rw [List.cons_append, lastGroupValue, ih]

/-- Witness for C8: three groups; `x` is bound in the first and second,
and the second (last binding) group's value 2 is returned. -/
theorem claim8_witness :
    load_config [("grp1", [("x", 1)]), ("grp2", [("x", 2), ("y", 7)]),
      ("grp3", [("z", 3)])] "x" = some 2 :=
  claim8_last_group_wins [("grp1", [("x", 1)])] [("grp3", [("z", 3)])]
    ("grp2", [("x", 2), ("y", 7)]) "x" 2 (by decide) (by decide)

/-- C9 counterexample: the hosts `a.b` and `a_b` are different stores, yet
`host.replace(".", "_")` sends both to the same directory `dump/a_b` —
sanitization is not injective, so runs against different stores can
collide in the same directory, contradicting the final part of the
claim. -/
theorem claim9_counterexample :
    ("a.b" : String) ≠ "a_b" ∧ outputPath "dump" "a.b" = outputPath "dump" "a_b" :=
  ⟨by decide, by decide⟩

/-- C9 as amended: every successful index export produces exactly one JSON
file, named `<index>_<unix-timestamp-seconds>.json`, placed under
`<outputDirectory>/<host with dots replaced by underscores>`; distinct
hosts usually get distinct directories, but the sanitization is not
injective (and the port is not part of the path), so different stores can
share a directory. -/
theorem claim9_one_artifact (directory host index_name : String) (ts P : Nat)
    (docs : List Json) :
    (process_index directory host P docs index_name ts).1
      = [(outputPath directory host ++ "/" ++ fileName index_name ts,
          renderArtifact docs)] := by
  simp only [process_index, scanDocs_eq, dump_to_file]

/-- C10: two successful exports of the same index at different
unix-second timestamps derive different artifact filenames, so neither
overwrites the other's artifact. -/
theorem claim10_distinct_names (index_name : String) (ts₁ ts₂ : Nat)
    (h : ts₁ ≠ ts₂) : fileName index_name ts₁ ≠ fileName index_name ts₂ :=
  fun he => h (fileName_inj_ts he)

/-- Witness for C10: the same index at timestamps 1 and 2. -/
theorem claim10_witness :
    (1 : Nat) ≠ 2 ∧ fileName "idx" 1 ≠ fileName "idx" 2 :=
  ⟨by decide, claim10_distinct_names "idx" 1 2 (by decide)⟩

end ElasticDump
